import Mathlib

/-!
Shallow embedding of `parse_influx.py`: the `catch_exceptions` decorator,
the `parse_to_influx` job pipeline (fetch → datetime checks → flatten →
write → freshness report), and the scheduler semantics the decorator's
return value interacts with.

Modelling conventions:
* Python `datetime.datetime` values are modelled as absolute instants
  (`Int`, seconds); timezone-aware datetimes compare by instant and
  `arrow.get(d).to("UTC")` preserves the instant, so UTC conversion is the
  identity on this representation.
* A parser's nested JSON-like output is the inductive `Value`; a Python
  dict is an association list (`Record`).
* Exceptions are `ExnInfo` values carried in `Except` / the `Outcome.raised`
  constructor; Python's implicit `return None` is `PyVal.none`.
* External collaborators (the parser capability, `arrow.get`, the InfluxDB
  client's `write_points`) are parameters of the run (`RunIn`); the calls
  made to the writer are recorded in `RunOut.writes`.
-/

namespace InfluxPipeline

/-- A scalar leaf of a parser result: a native `datetime.datetime`
(modelled as an absolute instant), a string, or a number. -/
inductive Scalar where
  | dt (t : Int)
  | str (s : String)
  | num (n : Int)
  deriving DecidableEq, Repr

/-- A JSON-like value returned by a parser: a scalar or a nested mapping. -/
inductive Value where
  | scalar (s : Scalar)
  | map (fields : List (String × Value))
  deriving Repr

/-- A Python dict, as an association list (dict keys are unique, so
`List.lookup`'s first-match rule agrees with dict lookup). -/
abbrev Record := List (String × Value)

/-- Whether a value is a scalar (a flat row has only scalar values). -/
def Value.isScalar : Value → Bool
  | .scalar _ => true
  | .map _ => false

/-- `type(v) is datetime.datetime`: the instant when the value is a native
datetime, `none` otherwise. -/
def Value.asDt : Value → Option Int
  | .scalar (.dt t) => some t
  | _ => none

/-- `flatten_dict.flatten` with `reducer="underscore"`, below the top
level: every key produced is `prefix ++ "_" ++ childKey` (recursively). -/
def flattenFields (pre : String) : List (String × Value) → List (String × Value)
  | [] => []
  | (k, Value.scalar s) :: rest =>
      (pre ++ "_" ++ k, Value.scalar s) :: flattenFields pre rest
  | (k, Value.map inner) :: rest =>
      flattenFields (pre ++ "_" ++ k) inner ++ flattenFields pre rest

/-- `flatten_dict.flatten(record, reducer="underscore")`: top-level keys
keep their name; nested mappings contribute underscore-joined path keys. -/
def flattenTop : Record → Record
  | [] => []
  | (k, Value.scalar s) :: rest => (k, Value.scalar s) :: flattenTop rest
  | (k, Value.map inner) :: rest => flattenFields k inner ++ flattenTop rest

/-- Python's substring test `pat in s`, on character lists. -/
def hasInfix (pat : List Char) : List Char → Bool
  | [] => pat.isPrefixOf []
  | c :: rest => pat.isPrefixOf (c :: rest) || hasInfix pat rest

/-- Python `pat in s` for strings. -/
def strIn (pat s : String) : Bool := hasInfix pat.data s.data

/-- The series name the batch is written under (lines 115–118):
`data_type + zone` when `"exchange" in data_type`, else `data_type`. -/
def series_target (data_type zone : String) : String :=
  if strIn "exchange" data_type then data_type ++ zone else data_type

/-- Python truthiness of the `target_datetime` argument (`None` or a
string): truthy exactly when it is a non-empty string. -/
def tdTruthy : Option String → Bool
  | Option.none => false
  | some s => !(s == "")

/-- The `target_datetime` value actually passed to the parser capability:
`None` unchanged, a falsy string unchanged, a truthy string replaced by
the `arrow`-parsed instant (line 74–75). -/
inductive TDArg where
  | noneArg
  | strArg (s : String)
  | dtArg (t : Int)
  deriving DecidableEq, Repr

/-- A parser capability's return value: `None`, a single dict, or a
list/tuple of dicts. -/
inductive FetchRes where
  | pyNone
  | single (r : Record)
  | many (rs : List Record)

/-- Python falsiness of the fetch result (line 85 `if not res`). -/
def FetchRes.falsy : FetchRes → Bool
  | .pyNone => true
  | .single r => r.isEmpty
  | .many rs => rs.isEmpty

/-- `res_list` (lines 90–93): a single dict is wrapped in a one-element
list, a list/tuple is taken as is. -/
def FetchRes.toList : FetchRes → List Record
  | .pyNone => []
  | .single r => [r]
  | .many rs => rs

/-- The comprehension `[e["datetime"] for e in res_list]` (line 96):
`none` when some record lacks the key (Python `KeyError`, caught by the
local `try`), otherwise the list of `datetime` values. -/
def collectDts : List Record → Option (List Value)
  | [] => some []
  | r :: rest =>
    match List.lookup "datetime" r, collectDts rest with
    | some v, some vs => some (v :: vs)
    | _, _ => Option.none

/-- An exception, identified by its formatted traceback text. -/
structure ExnInfo where
  trace : String
  deriving DecidableEq, Repr

/-- The `AssertionError` of line 104–106. -/
def assertionError : ExnInfo :=
  ⟨"AssertionError: Datetimes must be returned as native datetime.datetime objects"⟩

/-- The `ValueError` Python's `max`/`min` raise on an empty sequence
(would arise at lines 120–121 if `dts` were empty). -/
def emptySeqError : ExnInfo :=
  ⟨"ValueError: max() arg is an empty sequence"⟩

/-- A `print` made by a run, by content rather than formatted text. -/
inductive LogEvent where
  | parserReturnedNothing (res : FetchRes)
  | missingDatetimeKey (res : FetchRes)
  | verboseReport (first last : Int) (warning : String)
  | fetched (iso data_type zone : String)

/-- One `client.write_points(df, series, ...)` call (lines 116–118). -/
structure WriteCall where
  series : String
  rows : List Record

/-- The freshness data of lines 120–128: min/max returned datetime (as
UTC instants) and the staleness annotation string. -/
structure Freshness where
  first : Int
  last : Int
  warning : String
  deriving Repr

/-- How a `parse_to_influx` run ends. -/
inductive Outcome where
  | raised (e : ExnInfo)
  | emptyResult
  | missingDatetime
  | completed (fr : Freshness)

/-- The inputs of one `parse_to_influx` run, with the external
collaborators (parser capability, `arrow.get`, the InfluxDB writer, the
clock) as explicit parameters. -/
structure RunIn where
  zone : String
  data_type : String
  target_datetime : Option String
  arrowGet : String → Int
  parser : TDArg → Except ExnInfo FetchRes
  writer : String → List Record → Option ExnInfo
  nowUtc : Int
  nowStr : String
  nowIso : String
  verbose : Bool

/-- The observable effects of one `parse_to_influx` run. -/
structure RunOut where
  fetchArg : TDArg
  writes : List WriteCall
  logs : List LogEvent
  outcome : Outcome

/-- Staleness annotation when `(arrow.utcnow() - last_dt) > 2h` (line 125). -/
def staleMsg : String := " :( >2h from now !!!"

/-- Staleness annotation otherwise (line 127). -/
def okMsg (nowStr : String) : String :=
  " -- OK, <2h from now :) (now=" ++ nowStr ++ " UTC)"

/-- Lines 74–75: a truthy `target_datetime` string is parsed to an
instant before the parser is invoked; `None` and falsy strings pass
through unparsed. -/
def argOf (i : RunIn) : TDArg :=
  match i.target_datetime with
  | Option.none => TDArg.noneArg
  | some s => if s == "" then TDArg.strArg s else TDArg.dtArg (i.arrowGet s)

/-- The body of `parse_to_influx` (lines 74–145), as the effects it
produces: parser invocation, falsiness check, datetime extraction and
type assertion, underscore-flattening, the write, and the freshness
computation with its staleness annotation. -/
def parse_to_influx (i : RunIn) : RunOut :=
  let arg := argOf i
  match i.parser arg with
  | .error e => ⟨arg, [], [], .raised e⟩
  | .ok res =>
    if res.falsy then
      ⟨arg, [], [.parserReturnedNothing res], .emptyResult⟩
    else
      let res_list := res.toList
      match collectDts res_list with
      | Option.none => ⟨arg, [], [.missingDatetimeKey res], .missingDatetime⟩
      | some dts =>
        if dts.all (fun v => v.asDt.isSome) then
          let reduced := res_list.map flattenTop
          let series := series_target i.data_type i.zone
          match i.writer series reduced with
          | some e => ⟨arg, [⟨series, reduced⟩], [], .raised e⟩
          | Option.none =>
            let times := dts.filterMap Value.asDt
            match times.max?, times.min? with
            | some last, some first =>
              let warning :=
                if tdTruthy i.target_datetime then ""
                else if i.nowUtc - last > 7200 then staleMsg else okMsg i.nowStr
              ⟨arg, [⟨series, reduced⟩],
               [if i.verbose then .verboseReport first last warning
                else .fetched i.nowIso i.data_type i.zone],
               .completed ⟨first, last, warning⟩⟩
            | _, _ => ⟨arg, [⟨series, reduced⟩], [], .raised emptySeqError⟩
        else
          ⟨arg, [], [], .raised assertionError⟩

/-- A value the guarded job function can hand back to the scheduler:
Python `None`, the `schedule.CancelJob` sentinel, or any other object. -/
inductive PyVal where
  | none
  | cancelJob
  | other (n : Nat)
  deriving DecidableEq, Repr

/-- The `catch_exceptions` decorator's wrapper (lines 28–43): the job's
value passes through on success; an exception is swallowed, a
timestamped trace is printed, and `schedule.CancelJob` is returned only
under `cancel_on_failure=True` (else Python's implicit `None`). Result:
(returned value, printed lines). -/
def catch_exceptions (cancel_on_failure : Bool) (now_iso : String)
    (result : Except ExnInfo PyVal) : PyVal × List String :=
  match result with
  | .ok v => (v, [])
  | .error e =>
      (if cancel_on_failure then PyVal.cancelJob else PyVal.none,
       [now_iso ++ " " ++ e.trace])

/-- The Python return value of a `parse_to_influx` run before the
decorator: every non-raising path returns `None` (explicit bare
`return`s and falling off the end). -/
def runResult (i : RunIn) : Except ExnInfo PyVal :=
  match (parse_to_influx i).outcome with
  | .raised e => .error e
  | _ => .ok PyVal.none

/-- Modelled from the spec: a recurring job as the `schedule` library
(an external collaborator not under `src/`) keeps it — an identity, its
cadence, and its next due time. -/
structure SchedJob where
  id : Nat
  interval : Nat
  nextRun : Nat
  deriving DecidableEq, Repr

/-- Modelled from the spec: a job is due when its due time has arrived. -/
def jobDue (now : Nat) (j : SchedJob) : Bool := j.nextRun ≤ now

/-- Modelled from the spec: what the scheduler does with a due job after
its guarded run returns — a run returning the `CancelJob` sentinel
removes the job from the schedule (never attempted again); any other
return value leaves it scheduled for its next due tick. -/
def schedulerStep (now : Nat) (j : SchedJob) (result : PyVal) : Option SchedJob :=
  if result = PyVal.cancelJob then Option.none
  else some { j with nextRun := now + j.interval }

/-- Modelled from the spec: one scheduler tick — every due job runs
(serialized) and is rescheduled or cancelled by its own result; jobs not
due are untouched. -/
def schedulerTick (now : Nat) (run : SchedJob → PyVal) (jobs : List SchedJob) :
    List SchedJob :=
  jobs.filterMap (fun j => if jobDue now j then schedulerStep now j (run j) else some j)

/-- A record carries a `datetime` key whose value is a native datetime
(the batch invariant lines 96 and 104–106 check). -/
def hasNativeDt (r : Record) : Bool :=
  ((List.lookup "datetime" r).bind Value.asDt).isSome

/-- The enumerated data types of the `parse_to_influx` docstring
(lines 53–54). -/
def dataTypes : List String :=
  ["production", "exchangeForecast", "exchange", "price", "consumption",
   "generationForecast", "consumptionForecast"]

/-! Concrete sample inputs, used to evaluate the theorems on closed runs. -/

/-- A sample recurring job. -/
def sampleJob : SchedJob := ⟨1, 720, 0⟩

/-- A sample exception. -/
def boomExn : ExnInfo := ⟨"Traceback: boom"⟩

/-- A run whose parser capability raises. -/
def failRun : RunIn :=
  ⟨"AT", "production", Option.none, fun _ => 0, fun _ => Except.error boomExn,
   fun _ _ => Option.none, 0, "nowstr", "iso", false⟩

/-- The two-record production batch of the spec's scenario (section 8). -/
def goodBatch : List Record :=
  [[("datetime", Value.scalar (Scalar.dt 100)), ("value", Value.scalar (Scalar.num 100))],
   [("datetime", Value.scalar (Scalar.dt 200)), ("value", Value.scalar (Scalar.num 110))]]

/-- A run whose parser returns the good two-record batch. -/
def goodRun : RunIn :=
  ⟨"AT", "production", Option.none, fun _ => 0,
   fun _ => Except.ok (FetchRes.many goodBatch),
   fun _ _ => Option.none, 10000, "nowstr", "iso", false⟩

/-- A batch whose second record carries its datetime as a string. -/
def badBatch : List Record :=
  [[("datetime", Value.scalar (Scalar.dt 100))],
   [("datetime", Value.scalar (Scalar.str "2018-05-30 15:00"))]]

/-- A run whose parser returns the malformed batch. -/
def badRun : RunIn :=
  ⟨"AT", "production", Option.none, fun _ => 0,
   fun _ => Except.ok (FetchRes.many badBatch),
   fun _ _ => Option.none, 10000, "nowstr", "iso", false⟩

/-- A run whose parser returns an empty list. -/
def emptyRun : RunIn :=
  ⟨"AT", "price", Option.none, fun _ => 0, fun _ => Except.ok (FetchRes.many []),
   fun _ _ => Option.none, 0, "nowstr", "iso", false⟩

/-- A run invoked with the falsy-but-not-`None` target datetime `""`. -/
def liveStrRun : RunIn :=
  ⟨"AT", "production", some "", fun _ => 0,
   fun _ => Except.ok (FetchRes.many goodBatch),
   fun _ _ => Option.none, 10000, "nowstr", "iso", false⟩

/-- A job configured with cancel-on-failure whose run raises. -/
def cjob0 : SchedJob := ⟨0, 10, 0⟩

/-- A healthy job scheduled alongside `cjob0`. -/
def cjob1 : SchedJob := ⟨1, 10, 0⟩

/-- Per-job run results: `cjob0` raises, every other job returns `None`. -/
def cRunRes : SchedJob → Except ExnInfo PyVal :=
  fun j => if j.id = 0 then Except.error boomExn else Except.ok PyVal.none

/-- Per-job cancel-on-failure flags: enabled exactly for `cjob0`. -/
def cCancelFlag : SchedJob → Bool := fun j => j.id == 0

end InfluxPipeline

/-! Flattening lemmas: every key produced below the top level is
underscore-joined, every produced value is a scalar, and a top-level
scalar entry (such as `datetime`) survives flattening under its own key. -/

namespace InfluxPipeline

theorem flattenFields_key_underscore (pre : String) (l : List (String × Value)) :
    ∀ p ∈ flattenFields pre l, '_' ∈ p.1.data := by
  induction pre, l using flattenFields.induct with
  | case1 pre => simp [flattenFields]
  | case2 pre k s rest ih =>
    intro p hp
    simp only [flattenFields, List.mem_cons] at hp
    rcases hp with rfl | hp
    · simp [String.data_append]
    · exact ih p hp
  | case3 pre k inner rest ih1 ih2 =>
    intro p hp
    simp only [flattenFields, List.mem_append] at hp
    rcases hp with hp | hp
    · exact ih1 p hp
    · exact ih2 p hp

theorem flattenFields_isScalar (pre : String) (l : List (String × Value)) :
    ∀ p ∈ flattenFields pre l, p.2.isScalar = true := by
  induction pre, l using flattenFields.induct with
  | case1 pre => simp [flattenFields]
  | case2 pre k s rest ih =>
    intro p hp
    simp only [flattenFields, List.mem_cons] at hp
    rcases hp with rfl | hp
    · rfl
    · exact ih p hp
  | case3 pre k inner rest ih1 ih2 =>
    intro p hp
    simp only [flattenFields, List.mem_append] at hp
    rcases hp with hp | hp
    · exact ih1 p hp
    · exact ih2 p hp

theorem flattenTop_isScalar (r : Record) :
    ∀ p ∈ flattenTop r, p.2.isScalar = true := by
  induction r using flattenTop.induct with
  | case1 => simp [flattenTop]
  | case2 k s rest ih =>
    intro p hp
    simp only [flattenTop, List.mem_cons] at hp
    rcases hp with rfl | hp
    · rfl
    · exact ih p hp
  | case3 k inner rest ih =>
    intro p hp
    simp only [flattenTop, List.mem_append] at hp
    rcases hp with hp | hp
    · exact flattenFields_isScalar k inner p hp
    · exact ih p hp


theorem lookup_append_right {β : Type} (key : String)
    (l1 l2 : List (String × β)) (h : ∀ p ∈ l1, p.1 ≠ key) :
    List.lookup key (l1 ++ l2) = List.lookup key l2 := by
  induction l1 with
  | nil => rfl
  | cons p t ih =>
    obtain ⟨a, b⟩ := p
    have ha : a ≠ key := h (a, b) (List.mem_cons_self _ _)
    have hbk : (key == a) = false := by
      simp [beq_iff_eq]
      exact fun hk => ha hk.symm
    simp only [List.cons_append, List.lookup, hbk]
    exact ih fun q hq => h q (List.mem_cons_of_mem _ hq)

theorem no_underscore_datetime : ('_' ∈ "datetime".data) = False := by
  simp only [eq_iff_iff, iff_false]
  decide

theorem flattenTop_lookup_scalar (r : Record) (s : Scalar)
    (h : List.lookup "datetime" r = some (Value.scalar s)) :
    List.lookup "datetime" (flattenTop r) = some (Value.scalar s) := by
  induction r using flattenTop.induct with
  | case1 => simp [List.lookup] at h
  | case2 k s' rest ih =>
    cases hbk : (("datetime" : String) == k) with
    | true =>
      simp only [List.lookup, hbk] at h
      simp only [flattenTop, List.lookup, hbk]
      exact h
    | false =>
      simp only [List.lookup, hbk] at h
      simp only [flattenTop, List.lookup, hbk]
      exact ih h
  | case3 k inner rest ih =>
    cases hbk : (("datetime" : String) == k) with
    | true =>
      simp only [List.lookup, hbk] at h
      simp at h
    | false =>
      simp only [List.lookup, hbk] at h
      simp only [flattenTop]
      rw [lookup_append_right]
      · exact ih h
      · intro p hp hkey
        have hu := flattenFields_key_underscore k inner p hp
        rw [hkey] at hu
        exact (no_underscore_datetime ▸ hu)

end InfluxPipeline

/-! Lemmas about the datetime extraction, batch non-emptiness, and the
minimum/maximum of a list of instants. -/

namespace InfluxPipeline

theorem collectDts_length {l : List Record} {dts : List Value}
    (h : collectDts l = some dts) : dts.length = l.length := by
  induction l generalizing dts with
  | nil =>
    simp only [collectDts, Option.some.injEq] at h
    simp [← h]
  | cons r rest ih =>
    simp only [collectDts] at h
    cases hl : List.lookup "datetime" r with
    | none => rw [hl] at h; simp at h
    | some v =>
      rw [hl] at h
      cases hc : collectDts rest with
      | none => rw [hc] at h; simp at h
      | some vs =>
        rw [hc] at h
        simp only [Option.some.injEq] at h
        simp [← h, ih hc]

theorem collectDts_mem_lookup {l : List Record} {dts : List Value}
    (h : collectDts l = some dts) :
    ∀ r ∈ l, ∀ v, List.lookup "datetime" r = some v → v ∈ dts := by
  induction l generalizing dts with
  | nil => simp
  | cons r' rest ih =>
    intro r hr v hv
    simp only [collectDts] at h
    cases hl : List.lookup "datetime" r' with
    | none => rw [hl] at h; simp at h
    | some v0 =>
      rw [hl] at h
      cases hc : collectDts rest with
      | none => rw [hc] at h; simp at h
      | some vs =>
        rw [hc] at h
        simp only [Option.some.injEq] at h
        rcases List.mem_cons.mp hr with rfl | hmem
        · rw [hl] at hv
          simp only [Option.some.injEq] at hv
          simp [← h, hv]
        · have := ih hc r hmem v hv
          simp [← h, this]

theorem collectDts_none_of_missing {l : List Record} {r : Record}
    (hr : r ∈ l) (h : List.lookup "datetime" r = Option.none) :
    collectDts l = Option.none := by
  induction l with
  | nil => simp at hr
  | cons r' rest ih =>
    rcases List.mem_cons.mp hr with rfl | hmem
    · simp [collectDts, h]
    · simp only [collectDts, ih hmem]
      cases List.lookup "datetime" r' <;> rfl

theorem collectDts_of_good {l : List Record}
    (h : ∀ r ∈ l, hasNativeDt r = true) :
    ∃ dts, collectDts l = some dts ∧ dts.all (fun v => v.asDt.isSome) = true := by
  induction l with
  | nil => exact ⟨[], rfl, rfl⟩
  | cons r rest ih =>
    obtain ⟨dts, hc, ha⟩ := ih fun r' hr' => h r' (List.mem_cons_of_mem _ hr')
    have hr := h r (List.mem_cons_self _ _)
    simp only [hasNativeDt, Option.isSome_iff_exists, Option.bind_eq_some] at hr
    obtain ⟨t, v, hl, hd⟩ := hr
    refine ⟨v :: dts, ?_, ?_⟩
    · simp [collectDts, hl, hc]
    · simp only [List.all_cons, ha, Bool.and_true]
      simp [hd]

theorem toList_ne_nil {res : FetchRes} (h : res.falsy = false) :
    res.toList ≠ [] := by
  cases res with
  | pyNone => simp [FetchRes.falsy] at h
  | single r => simp [FetchRes.toList]
  | many rs =>
    simp only [FetchRes.falsy, List.isEmpty_iff] at h
    simpa [FetchRes.toList] using h

theorem filterMap_asDt_ne_nil {dts : List Value} (hne : dts ≠ [])
    (ha : dts.all (fun v => v.asDt.isSome) = true) :
    dts.filterMap Value.asDt ≠ [] := by
  cases dts with
  | nil => exact absurd rfl hne
  | cons v rest =>
    simp only [List.all_cons, Bool.and_eq_true] at ha
    obtain ⟨t, ht⟩ := Option.isSome_iff_exists.mp ha.1
    simp [List.filterMap_cons, ht]

theorem int_max?_spec {l : List Int} {a : Int} (h : l.max? = some a) :
    a ∈ l ∧ ∀ b ∈ l, b ≤ a := by
  haveI : Std.Antisymm ((· : Int) ≤ ·) := ⟨fun h1 h2 => le_antisymm h1 h2⟩
  exact (List.max?_eq_some_iff (fun _ => le_refl _) (fun a b => max_choice a b)
    (fun _ _ _ => max_le_iff)).mp h

theorem int_min?_spec {l : List Int} {a : Int} (h : l.min? = some a) :
    a ∈ l ∧ ∀ b ∈ l, a ≤ b := by
  haveI : Std.Antisymm ((· : Int) ≤ ·) := ⟨fun h1 h2 => le_antisymm h1 h2⟩
  have := (List.min?_eq_some_iff (fun _ => le_refl _) (fun a b => min_choice a b)
    (fun _ _ _ => le_min_iff)).mp h
  exact ⟨this.1, fun b hb => this.2 b hb⟩

end InfluxPipeline

/-! Branch characterizations of `parse_to_influx`: one equation per
termination path of the pipeline. -/

namespace InfluxPipeline

theorem run_error_eq (i : RunIn) (e : ExnInfo)
    (hp : i.parser (argOf i) = Except.error e) :
    parse_to_influx i = ⟨argOf i, [], [], Outcome.raised e⟩ := by
  simp only [parse_to_influx]
  rw [hp]

theorem run_empty_eq (i : RunIn) (res : FetchRes)
    (hp : i.parser (argOf i) = Except.ok res) (hf : res.falsy = true) :
    parse_to_influx i
      = ⟨argOf i, [], [LogEvent.parserReturnedNothing res], Outcome.emptyResult⟩ := by
  simp only [parse_to_influx]
  rw [hp]
  simp only [hf, if_true]

theorem run_missing_eq (i : RunIn) (res : FetchRes)
    (hp : i.parser (argOf i) = Except.ok res) (hf : res.falsy = false)
    (hcd : collectDts res.toList = Option.none) :
    parse_to_influx i
      = ⟨argOf i, [], [LogEvent.missingDatetimeKey res], Outcome.missingDatetime⟩ := by
  simp only [parse_to_influx]
  rw [hp]
  simp only [hf, Bool.false_eq_true, if_false, hcd]

theorem run_assert_eq (i : RunIn) (res : FetchRes) (dts : List Value)
    (hp : i.parser (argOf i) = Except.ok res) (hf : res.falsy = false)
    (hcd : collectDts res.toList = some dts)
    (ha : dts.all (fun v => v.asDt.isSome) = false) :
    parse_to_influx i = ⟨argOf i, [], [], Outcome.raised assertionError⟩ := by
  simp only [parse_to_influx]
  rw [hp]
  simp only [hf, Bool.false_eq_true, if_false, hcd, ha]

theorem run_writer_raised_eq (i : RunIn) (res : FetchRes) (dts : List Value) (e : ExnInfo)
    (hp : i.parser (argOf i) = Except.ok res) (hf : res.falsy = false)
    (hcd : collectDts res.toList = some dts)
    (ha : dts.all (fun v => v.asDt.isSome) = true)
    (hw : i.writer (series_target i.data_type i.zone) (res.toList.map flattenTop)
            = some e) :
    parse_to_influx i
      = ⟨argOf i,
         [⟨series_target i.data_type i.zone, res.toList.map flattenTop⟩], [],
         Outcome.raised e⟩ := by
  simp only [parse_to_influx]
  rw [hp]
  simp only [hf, Bool.false_eq_true, if_false, hcd, ha, if_true, hw]

theorem run_completed (i : RunIn) (res : FetchRes) (dts : List Value)
    (hp : i.parser (argOf i) = Except.ok res) (hf : res.falsy = false)
    (hcd : collectDts res.toList = some dts)
    (ha : dts.all (fun v => v.asDt.isSome) = true)
    (hw : i.writer (series_target i.data_type i.zone) (res.toList.map flattenTop)
            = Option.none) :
    ∃ first last,
      (dts.filterMap Value.asDt).min? = some first ∧
      (dts.filterMap Value.asDt).max? = some last ∧
      (parse_to_influx i).outcome = Outcome.completed ⟨first, last,
        if tdTruthy i.target_datetime then ""
        else if i.nowUtc - last > 7200 then staleMsg else okMsg i.nowStr⟩ := by
  have hdne : dts ≠ [] := by
    intro h0
    have hlen := collectDts_length hcd
    rw [h0] at hlen
    exact toList_ne_nil hf (List.length_eq_zero.mp hlen.symm)
  have hne := filterMap_asDt_ne_nil hdne ha
  cases hmax : (dts.filterMap Value.asDt).max? with
  | none => exact absurd (List.max?_eq_none_iff.mp hmax) hne
  | some last =>
  cases hmin : (dts.filterMap Value.asDt).min? with
  | none => exact absurd (List.min?_eq_none_iff.mp hmin) hne
  | some first =>
  refine ⟨first, last, rfl, rfl, ?_⟩
  simp only [parse_to_influx]
  rw [hp]
  simp only [hf, Bool.false_eq_true, if_false, hcd, ha, if_true, hw, hmax, hmin]

end InfluxPipeline

/-! Claim theorems. -/

namespace InfluxPipeline

/-- C1: an exception raised at any pipeline stage of a guarded job run is
caught by `catch_exceptions`: the guard returns `None` (never the raised
exception), prints a timestamped trace, and under the default
`cancel_on_failure=False` policy the scheduler keeps the job scheduled
for its next due tick. -/
theorem guard_absorbs_and_reschedules (i : RunIn) (e : ExnInfo) (now : Nat)
    (iso : String) (j : SchedJob)
    (h : runResult i = Except.error e) :
    catch_exceptions false iso (runResult i) = (PyVal.none, [iso ++ " " ++ e.trace])
    ∧ schedulerStep now j (catch_exceptions false iso (runResult i)).1
        = some { j with nextRun := now + j.interval } := by
  rw [h]
  exact ⟨rfl, rfl⟩

/-- Witness for C1: a run whose parser raises is absorbed, logged, and
left scheduled. -/
theorem guard_absorbs_and_reschedules_witness :
    catch_exceptions false "iso" (runResult failRun)
        = (PyVal.none, ["iso" ++ " " ++ boomExn.trace])
    ∧ schedulerStep 5 sampleJob (catch_exceptions false "iso" (runResult failRun)).1
        = some { sampleJob with nextRun := 5 + sampleJob.interval } :=
  guard_absorbs_and_reschedules failRun boomExn 5 "iso" sampleJob rfl

/-- C7: a fetch returning an empty/falsy result ends the run as a
non-error no-op — the outcome is logged, nothing is normalized and
nothing is written. -/
theorem empty_fetch_noop (i : RunIn) (res : FetchRes)
    (hp : i.parser (argOf i) = Except.ok res) (hf : res.falsy = true) :
    parse_to_influx i
      = ⟨argOf i, [], [LogEvent.parserReturnedNothing res], Outcome.emptyResult⟩ :=
  run_empty_eq i res hp hf

/-- Witness for C7: a parser returning an empty list yields the logged
no-op with no writes. -/
theorem empty_fetch_noop_witness :
    parse_to_influx emptyRun
      = ⟨argOf emptyRun, [], [LogEvent.parserReturnedNothing (FetchRes.many [])],
         Outcome.emptyResult⟩ :=
  empty_fetch_noop emptyRun (FetchRes.many []) rfl rfl

/-- C9: the guard is return-transparent on success, and under the default
policy a failing run returns exactly what a successful run returning
`None` returns. -/
theorem guard_return_transparent :
    (∀ (c : Bool) (iso : String) (v : PyVal),
        (catch_exceptions c iso (Except.ok v)).1 = v)
    ∧ (∀ (iso : String) (e : ExnInfo),
        (catch_exceptions false iso (Except.error e)).1
          = (catch_exceptions false iso (Except.ok PyVal.none)).1)
    ∧ (∀ (iso : String) (e : ExnInfo),
        (catch_exceptions false iso (Except.error e)).1 = PyVal.none) :=
  ⟨fun _ _ _ => rfl, fun _ _ => rfl, fun _ _ => rfl⟩

end InfluxPipeline
namespace InfluxPipeline

/-- C5: for every data type in the enumerated set and every zone, the
series target is `data_type ++ zone` exactly for the exchange types and
`data_type` alone otherwise; in particular
`series_target "exchange" "AT->CH" = "exchangeAT->CH"` and
`series_target "production" "AT" = "production"`. -/
theorem series_target_rule (dt : String) (hdt : dt ∈ dataTypes) (zone : String) :
    (series_target dt zone
       = if dt = "exchange" ∨ dt = "exchangeForecast" then dt ++ zone else dt)
    ∧ series_target "exchange" "AT->CH" = "exchangeAT->CH"
    ∧ series_target "production" "AT" = "production" := by
  refine ⟨?_, by decide, by decide⟩
  fin_cases hdt
  · rw [series_target, if_neg (by decide), if_neg (by decide)]
  · rw [series_target, if_pos (by decide), if_pos (by decide)]
  · rw [series_target, if_pos (by decide), if_pos (by decide)]
  · rw [series_target, if_neg (by decide), if_neg (by decide)]
  · rw [series_target, if_neg (by decide), if_neg (by decide)]
  · rw [series_target, if_neg (by decide), if_neg (by decide)]
  · rw [series_target, if_neg (by decide), if_neg (by decide)]

/-- Witness for C5: the rule evaluated at the enumerated type
`"production"` and zone `"AT"`. -/
theorem series_target_rule_witness :
    (series_target "production" "AT"
       = if ("production" : String) = "exchange"
            ∨ ("production" : String) = "exchangeForecast"
         then "production" ++ "AT" else "production")
    ∧ series_target "exchange" "AT->CH" = "exchangeAT->CH"
    ∧ series_target "production" "AT" = "production" :=
  series_target_rule "production" (by decide) "AT"

end InfluxPipeline
namespace InfluxPipeline

/-- C2: a non-empty batch containing a record that lacks a `datetime` key
or carries it as a non-native value is discarded whole before any row is
written — the run ends in the logged missing-key return or in the
`AssertionError`, and zero write calls are made. -/
theorem schema_error_discards_batch (i : RunIn) (res : FetchRes)
    (hp : i.parser (argOf i) = Except.ok res)
    (hf : res.falsy = false)
    (hbad : ∃ r ∈ res.toList, hasNativeDt r = false) :
    (parse_to_influx i).writes = []
    ∧ ((parse_to_influx i).outcome = Outcome.missingDatetime
       ∨ (parse_to_influx i).outcome = Outcome.raised assertionError) := by
  obtain ⟨r, hr, hbr⟩ := hbad
  replace hbr : (List.lookup "datetime" r).bind Value.asDt = Option.none := by
    unfold hasNativeDt at hbr
    exact Option.not_isSome_iff_eq_none.mp (by simp [hbr])
  cases hl : List.lookup "datetime" r with
  | none =>
    have hcd := collectDts_none_of_missing hr hl
    rw [run_missing_eq i res hp hf hcd]
    exact ⟨rfl, Or.inl rfl⟩
  | some v =>
    rw [hl] at hbr
    simp only [Option.some_bind] at hbr
    cases hcd : collectDts res.toList with
    | none =>
      rw [run_missing_eq i res hp hf hcd]
      exact ⟨rfl, Or.inl rfl⟩
    | some dts =>
      have hv : v ∈ dts := collectDts_mem_lookup hcd r hr v hl
      have ha : dts.all (fun v => v.asDt.isSome) = false := by
        rw [List.all_eq_false]
        exact ⟨v, hv, by simp [hbr]⟩
      rw [run_assert_eq i res dts hp hf hcd ha]
      exact ⟨rfl, Or.inr rfl⟩

/-- Witness for C2: the two-record batch whose second record carries a
string datetime is rejected whole with no writes. -/
theorem schema_error_discards_batch_witness :
    (parse_to_influx badRun).writes = []
    ∧ ((parse_to_influx badRun).outcome = Outcome.missingDatetime
       ∨ (parse_to_influx badRun).outcome = Outcome.raised assertionError) :=
  schema_error_discards_batch badRun (FetchRes.many badBatch) rfl rfl
    ⟨[("datetime", Value.scalar (Scalar.str "2018-05-30 15:00"))],
     by simp [FetchRes.toList, badBatch], rfl⟩

end InfluxPipeline

namespace InfluxPipeline

theorem run_good_writes (i : RunIn) (res : FetchRes) (dts : List Value)
    (hp : i.parser (argOf i) = .ok res)
    (hf : res.falsy = false)
    (hc : collectDts res.toList = some dts)
    (ha : dts.all (fun v => v.asDt.isSome) = true) :
    (parse_to_influx i).writes
      = [⟨series_target i.data_type i.zone, res.toList.map flattenTop⟩] := by
  simp only [parse_to_influx]
  rw [hp]
  simp only [hf, Bool.false_eq_true, if_false, hc, ha, if_true]
  cases hw : i.writer (series_target i.data_type i.zone) (res.toList.map flattenTop) with
  | some e => rfl
  | none =>
    cases hmax : (dts.filterMap Value.asDt).max? with
    | none =>
      cases hmin : (dts.filterMap Value.asDt).min? <;> rfl
    | some last =>
      cases hmin : (dts.filterMap Value.asDt).min? <;> rfl

end InfluxPipeline
namespace InfluxPipeline

/-- C3: when every record of a non-empty batch carries a native-datetime
`datetime` field, the run writes exactly the underscore-flattened batch:
same length, rows with only scalar values, each row's `datetime` equal to
its record's, and nested keys joined by an underscore as in the
`breakdown`/`coal` example. -/
theorem normalize_flat_preserves_datetime (i : RunIn) (res : FetchRes)
    (hp : i.parser (argOf i) = Except.ok res)
    (hf : res.falsy = false)
    (hgood : ∀ r ∈ res.toList, hasNativeDt r = true) :
    (parse_to_influx i).writes
        = [⟨series_target i.data_type i.zone, res.toList.map flattenTop⟩]
    ∧ (res.toList.map flattenTop).length = res.toList.length
    ∧ (∀ row ∈ res.toList.map flattenTop, ∀ p ∈ row, p.2.isScalar = true)
    ∧ (∀ r ∈ res.toList,
        List.lookup "datetime" (flattenTop r) = List.lookup "datetime" r)
    ∧ flattenTop [("breakdown", Value.map [("coal", Value.scalar (Scalar.num 10))])]
        = [("breakdown_coal", Value.scalar (Scalar.num 10))] := by
  obtain ⟨dts, hcd, ha⟩ := collectDts_of_good hgood
  refine ⟨run_good_writes i res dts hp hf hcd ha, List.length_map _ _, ?_, ?_, by simp [flattenTop, flattenFields]⟩
  · intro row hrow p hp'
    obtain ⟨r, _, rfl⟩ := List.mem_map.mp hrow
    exact flattenTop_isScalar r p hp'
  · intro r hr
    have hnat := hgood r hr
    unfold hasNativeDt at hnat
    obtain ⟨t, hbind⟩ := Option.isSome_iff_exists.mp hnat
    obtain ⟨v, hl, hd⟩ := Option.bind_eq_some.mp hbind
    cases v with
    | map fields => simp [Value.asDt] at hd
    | scalar s =>
      rw [hl]
      exact flattenTop_lookup_scalar r s hl

/-- Witness for C3: the spec's two-record production scenario is
flattened, preserved, and written as-is. -/
theorem normalize_flat_preserves_datetime_witness :
    (parse_to_influx goodRun).writes
        = [⟨series_target goodRun.data_type goodRun.zone,
            (FetchRes.many goodBatch).toList.map flattenTop⟩]
    ∧ ((FetchRes.many goodBatch).toList.map flattenTop).length
        = (FetchRes.many goodBatch).toList.length
    ∧ (∀ row ∈ (FetchRes.many goodBatch).toList.map flattenTop,
        ∀ p ∈ row, p.2.isScalar = true)
    ∧ (∀ r ∈ (FetchRes.many goodBatch).toList,
        List.lookup "datetime" (flattenTop r) = List.lookup "datetime" r)
    ∧ flattenTop [("breakdown", Value.map [("coal", Value.scalar (Scalar.num 10))])]
        = [("breakdown_coal", Value.scalar (Scalar.num 10))] :=
  normalize_flat_preserves_datetime goodRun (FetchRes.many goodBatch) rfl rfl
    (by intro r hr
        simp [FetchRes.toList, goodBatch] at hr
        rcases hr with rfl | rfl <;> rfl)

end InfluxPipeline
namespace InfluxPipeline

/-- C4: a completed run reports `first` as the minimum and `last` as the
maximum of the batch's datetime instants (UTC conversion preserves the
instant); staleness (strictly more than 2 hours before now) is evaluated
only when no truthy `target_datetime` was requested, and a truthy
`target_datetime` always yields an empty staleness annotation. -/
theorem freshness_min_max_staleness (i : RunIn) (res : FetchRes) (dts : List Value)
    (hp : i.parser (argOf i) = Except.ok res)
    (hf : res.falsy = false)
    (hcd : collectDts res.toList = some dts)
    (ha : dts.all (fun v => v.asDt.isSome) = true)
    (hw : i.writer (series_target i.data_type i.zone) (res.toList.map flattenTop)
            = Option.none) :
    ∃ fr, (parse_to_influx i).outcome = Outcome.completed fr
      ∧ fr.first ∈ dts.filterMap Value.asDt
      ∧ (∀ t ∈ dts.filterMap Value.asDt, fr.first ≤ t)
      ∧ fr.last ∈ dts.filterMap Value.asDt
      ∧ (∀ t ∈ dts.filterMap Value.asDt, t ≤ fr.last)
      ∧ (tdTruthy i.target_datetime = true → fr.warning = "")
      ∧ (tdTruthy i.target_datetime = false →
          fr.warning
            = if i.nowUtc - fr.last > 7200 then staleMsg else okMsg i.nowStr) := by
  obtain ⟨first, last, hmin, hmax, hout⟩ := run_completed i res dts hp hf hcd ha hw
  obtain ⟨hminmem, hminle⟩ := int_min?_spec hmin
  obtain ⟨hmaxmem, hmaxle⟩ := int_max?_spec hmax
  refine ⟨_, hout, hminmem, hminle, hmaxmem, hmaxle, ?_, ?_⟩
  · intro ht
    simp [ht]
  · intro ht
    simp [ht]

/-- Witness for C4: the two-record batch with instants 100 and 200 under
now = 10000 completes with first 100, last 200, and the stale annotation
(10000 − 200 > 7200). -/
theorem freshness_min_max_staleness_witness :
    ∃ fr, (parse_to_influx goodRun).outcome = Outcome.completed fr
      ∧ fr.first ∈ [Value.scalar (Scalar.dt 100),
                    Value.scalar (Scalar.dt 200)].filterMap Value.asDt
      ∧ (∀ t ∈ [Value.scalar (Scalar.dt 100),
                Value.scalar (Scalar.dt 200)].filterMap Value.asDt, fr.first ≤ t)
      ∧ fr.last ∈ [Value.scalar (Scalar.dt 100),
                   Value.scalar (Scalar.dt 200)].filterMap Value.asDt
      ∧ (∀ t ∈ [Value.scalar (Scalar.dt 100),
                Value.scalar (Scalar.dt 200)].filterMap Value.asDt, t ≤ fr.last)
      ∧ (tdTruthy goodRun.target_datetime = true → fr.warning = "")
      ∧ (tdTruthy goodRun.target_datetime = false →
          fr.warning
            = if goodRun.nowUtc - fr.last > 7200 then staleMsg
              else okMsg goodRun.nowStr) :=
  freshness_min_max_staleness goodRun (FetchRes.many goodBatch)
    [Value.scalar (Scalar.dt 100), Value.scalar (Scalar.dt 200)] rfl rfl rfl rfl rfl

end InfluxPipeline
namespace InfluxPipeline

theorem completed_warning (i : RunIn) (fr : Freshness)
    (h : (parse_to_influx i).outcome = Outcome.completed fr) :
    fr.warning = if tdTruthy i.target_datetime then ""
                 else if i.nowUtc - fr.last > 7200 then staleMsg else okMsg i.nowStr := by
  cases hp : i.parser (argOf i) with
  | error e => rw [run_error_eq i e hp] at h; exact absurd h (by simp)
  | ok res =>
    cases hf : res.falsy with
    | true => rw [run_empty_eq i res hp hf] at h; exact absurd h (by simp)
    | false =>
      cases hcd : collectDts res.toList with
      | none => rw [run_missing_eq i res hp hf hcd] at h; exact absurd h (by simp)
      | some dts =>
        cases ha : dts.all (fun v => v.asDt.isSome) with
        | false =>
          rw [run_assert_eq i res dts hp hf hcd ha] at h
          exact absurd h (by simp)
        | true =>
          cases hw : i.writer (series_target i.data_type i.zone)
              (res.toList.map flattenTop) with
          | some e =>
            rw [run_writer_raised_eq i res dts e hp hf hcd ha hw] at h
            exact absurd h (by simp)
          | none =>
            obtain ⟨first, last, _, _, hout⟩ := run_completed i res dts hp hf hcd ha hw
            rw [hout] at h
            simp only [Outcome.completed.injEq] at h
            rw [← h]

end InfluxPipeline
namespace InfluxPipeline

/-- C10: the min/max freshness computation sits behind the non-empty
fetch check, so it always runs on a non-empty list of datetimes: provided
neither the parser nor the writer themselves raise the empty-sequence
`ValueError`, no run ever ends with it. -/
theorem minmax_after_nonempty_check (i : RunIn)
    (hpe : ∀ e, i.parser (argOf i) = Except.error e → e ≠ emptySeqError)
    (hwe : ∀ s rows e, i.writer s rows = some e → e ≠ emptySeqError) :
    (parse_to_influx i).outcome ≠ Outcome.raised emptySeqError := by
  cases hp : i.parser (argOf i) with
  | error e =>
    rw [run_error_eq i e hp]
    intro hc
    exact hpe e hp (by injection hc)
  | ok res =>
    cases hf : res.falsy with
    | true => rw [run_empty_eq i res hp hf]; intro hc; exact Outcome.noConfusion hc
    | false =>
      cases hcd : collectDts res.toList with
      | none =>
        rw [run_missing_eq i res hp hf hcd]
        intro hc
        exact Outcome.noConfusion hc
      | some dts =>
        cases ha : dts.all (fun v => v.asDt.isSome) with
        | false =>
          rw [run_assert_eq i res dts hp hf hcd ha]
          intro hc
          have h2 : assertionError = emptySeqError := by injection hc
          simp [assertionError, emptySeqError] at h2
        | true =>
          cases hw : i.writer (series_target i.data_type i.zone)
              (res.toList.map flattenTop) with
          | some e =>
            rw [run_writer_raised_eq i res dts e hp hf hcd ha hw]
            intro hc
            exact hwe _ _ e hw (by injection hc)
          | none =>
            obtain ⟨first, last, _, _, hout⟩ := run_completed i res dts hp hf hcd ha hw
            rw [hout]
            intro hc
            exact Outcome.noConfusion hc

/-- Witness for C10: the good two-record run never raises the
empty-sequence error. -/
theorem minmax_after_nonempty_check_witness :
    (parse_to_influx goodRun).outcome ≠ Outcome.raised emptySeqError :=
  minmax_after_nonempty_check goodRun
    (fun _ h => Except.noConfusion h)
    (fun _ _ _ h => Option.noConfusion h)

/-- C8: a falsy but non-`None` `target_datetime` (the empty string) is
treated as a live poll: it is not truthy, it is passed to the parser as
the raw unparsed string (for any `arrow.get`), staleness of a completed
run is evaluated against the current time exactly as for a live poll,
and only a truthy (non-empty) string selects the historical path. -/
theorem falsy_target_is_live (i : RunIn) (hts : i.target_datetime = some "") :
    tdTruthy i.target_datetime = false
    ∧ argOf i = TDArg.strArg ""
    ∧ (∀ g : String → Int, argOf { i with arrowGet := g } = TDArg.strArg "")
    ∧ (∀ fr, (parse_to_influx i).outcome = Outcome.completed fr →
        fr.warning = if i.nowUtc - fr.last > 7200 then staleMsg else okMsg i.nowStr)
    ∧ (∀ s, s ≠ "" → tdTruthy (some s) = true) := by
  have htd : tdTruthy i.target_datetime = false := by rw [hts]; rfl
  refine ⟨htd, by rw [argOf, hts]; rfl, ?_, ?_, fun s hs => by simp [tdTruthy, hs]⟩
  · intro g
    show (match ({ i with arrowGet := g } : RunIn).target_datetime with
          | Option.none => TDArg.noneArg
          | some s => if s == "" then TDArg.strArg s
                      else TDArg.dtArg (({ i with arrowGet := g} : RunIn).arrowGet s))
        = TDArg.strArg ""
    rw [show ({ i with arrowGet := g } : RunIn).target_datetime = some "" from hts]
    rfl
  · intro fr h
    have hwarn := completed_warning i fr h
    rw [htd] at hwarn
    simpa using hwarn

/-- Witness for C8: the empty-string-target run over the good batch
completes with the live staleness annotation. -/
theorem falsy_target_is_live_witness :
    tdTruthy liveStrRun.target_datetime = false
    ∧ argOf liveStrRun = TDArg.strArg ""
    ∧ (∀ g : String → Int, argOf { liveStrRun with arrowGet := g } = TDArg.strArg "")
    ∧ (∀ fr, (parse_to_influx liveStrRun).outcome = Outcome.completed fr →
        fr.warning
          = if liveStrRun.nowUtc - fr.last > 7200 then staleMsg
            else okMsg liveStrRun.nowStr)
    ∧ (∀ s, s ≠ "" → tdTruthy (some s) = true) :=
  falsy_target_is_live liveStrRun rfl

end InfluxPipeline
namespace InfluxPipeline

/-- C6: under the cancel-on-failure policy, a job whose run raises makes
the guard return the `CancelJob` sentinel, so the scheduler drops that
job for good while every other job keeps its schedule; under the default
policy a failing run never returns the sentinel. -/
theorem cancel_on_failure_policy (now : Nat) (iso : String) (e : ExnInfo)
    (jobs : List SchedJob) (j0 : SchedJob)
    (runRes : SchedJob → Except ExnInfo PyVal) (flag : SchedJob → Bool)
    (hflag : flag j0 = true)
    (hfail : runRes j0 = Except.error e)
    (hdue : jobDue now j0 = true)
    (hid : ∀ j ∈ jobs, j.id = j0.id → j = j0)
    (hothers : ∀ j ∈ jobs, j.id ≠ j0.id →
        (catch_exceptions (flag j) iso (runRes j)).1 ≠ PyVal.cancelJob) :
    (catch_exceptions (flag j0) iso (runRes j0)).1 = PyVal.cancelJob
    ∧ (∀ j' ∈ schedulerTick now
          (fun j => (catch_exceptions (flag j) iso (runRes j)).1) jobs,
        j'.id ≠ j0.id)
    ∧ (∀ j ∈ jobs, j.id ≠ j0.id →
        ∃ j' ∈ schedulerTick now
            (fun j => (catch_exceptions (flag j) iso (runRes j)).1) jobs,
          j'.id = j.id ∧ j'.interval = j.interval)
    ∧ (catch_exceptions false iso (runRes j0)).1 ≠ PyVal.cancelJob := by
  have hcancel : (catch_exceptions (flag j0) iso (runRes j0)).1 = PyVal.cancelJob := by
    rw [hfail, hflag]
    rfl
  refine ⟨hcancel, ?_, ?_, by rw [hfail]; exact fun hc => PyVal.noConfusion hc⟩
  · intro j' hj'
    rw [schedulerTick, List.mem_filterMap] at hj'
    obtain ⟨j, hj, hgj⟩ := hj'
    by_cases hjid : j.id = j0.id
    · have hjj0 : j = j0 := hid j hj hjid
      subst hjj0
      rw [hdue, if_pos rfl, hcancel] at hgj
      simp [schedulerStep] at hgj
    · intro hj'id
      cases hdj : jobDue now j with
      | true =>
        rw [hdj, if_pos rfl, schedulerStep] at hgj
        rw [if_neg (hothers j hj hjid)] at hgj
        have : j' = { j with nextRun := now + j.interval } := by
          injection hgj with h'
          exact h'.symm
        rw [this] at hj'id
        exact hjid hj'id
      | false =>
        rw [hdj] at hgj
        simp only [Bool.false_eq_true, if_false, Option.some.injEq] at hgj
        rw [hgj] at hjid
        exact hjid hj'id
  · intro j hj hjid
    cases hdj : jobDue now j with
    | true =>
      refine ⟨{ j with nextRun := now + j.interval }, ?_, rfl, rfl⟩
      rw [schedulerTick, List.mem_filterMap]
      refine ⟨j, hj, ?_⟩
      rw [hdj, if_pos rfl, schedulerStep, if_neg (hothers j hj hjid)]
    | false =>
      refine ⟨j, ?_, rfl, rfl⟩
      rw [schedulerTick, List.mem_filterMap]
      refine ⟨j, hj, ?_⟩
      rw [hdj]
      simp

/-- Witness for C6: with jobs 0 (cancel-on-failure, raising) and 1
(healthy) both due, the tick output drops job 0 and keeps job 1. -/
theorem cancel_on_failure_policy_witness :
    (catch_exceptions (cCancelFlag cjob0) "iso" (cRunRes cjob0)).1 = PyVal.cancelJob
    ∧ (∀ j' ∈ schedulerTick 0
          (fun j => (catch_exceptions (cCancelFlag j) "iso" (cRunRes j)).1)
          [cjob0, cjob1],
        j'.id ≠ cjob0.id)
    ∧ (∀ j ∈ [cjob0, cjob1], j.id ≠ cjob0.id →
        ∃ j' ∈ schedulerTick 0
            (fun j => (catch_exceptions (cCancelFlag j) "iso" (cRunRes j)).1)
            [cjob0, cjob1],
          j'.id = j.id ∧ j'.interval = j.interval)
    ∧ (catch_exceptions false "iso" (cRunRes cjob0)).1 ≠ PyVal.cancelJob :=
  cancel_on_failure_policy 0 "iso" boomExn [cjob0, cjob1] cjob0 cRunRes cCancelFlag
    rfl rfl rfl (by decide)
    (by intro j hj hjid
        have : j = cjob1 := by
          rcases List.mem_cons.mp hj with rfl | hj1
          · exact absurd rfl hjid
          · rcases List.mem_cons.mp hj1 with rfl | hj2
            · rfl
            · simp at hj2
        rw [this]
        intro hc
        exact PyVal.noConfusion hc)

end InfluxPipeline
